import Mathlib

/-!
Verification of the fake-stack-overflow backend's store operations.

The Tag store is embedded from `server/models/tags` (schemas/tags.ts).
The Answer, Question and User stores and the login route are present in the
repository only through their test suites; their operations are modelled from
the specification's contracts (each such definition carries a
`Modelled from the spec:` doc comment naming what is missing).

Mongo documents are embedded as Lean structures, a collection as a `List` of
documents, and the generated ObjectId as a `Nat` drawn from a counter held in
the store state.  `findOne`/`findById` become `List.find?`; an atomic
find-and-update becomes a pure function from store to store.
-/

namespace FakeSO

/-- A document in the Tags collection: `TagSchema` has a single required
field `name`; `_id` is the generated identifier. -/
structure Tag where
  _id : Nat
  name : String
deriving Repr, DecidableEq

/-- The Tags collection plus the id generator used by `create`. -/
structure TagStore where
  tags : List Tag
  nextId : Nat
deriving Repr, DecidableEq

namespace TagStore

/-- `this.findOne({ name: tag })`: the first tag document whose name equals
the given string. -/
def findOneByName (s : TagStore) (tag : String) : Option Tag :=
  s.tags.find? (fun t => t.name == tag)

/-- `this.create({ name: tag })`: insert a new document with a fresh id and
return it together with the updated store. -/
def create (s : TagStore) (tag : String) : Tag × TagStore :=
  let t : Tag := ⟨s.nextId, tag⟩
  (t, ⟨s.tags ++ [t], s.nextId + 1⟩)

/-- `TagSchema.statics.findOrCreateMany`: for each name in input order,
reuse the tag found by `findOne({name})` or create a new one, pushing
`{_id, name}` onto the result array. -/
def findOrCreateMany (s : TagStore) (tags : List String) : List Tag × TagStore :=
  match tags with
  | [] => ([], s)
  | tag :: rest =>
    match s.findOneByName tag with
    | some result =>
        let (tagArr, s') := findOrCreateMany s rest
        (result :: tagArr, s')
    | none =>
        let (newTag, s1) := s.create tag
        let (tagArr, s') := findOrCreateMany s1 rest
        (newTag :: tagArr, s')

/-- `TagSchema.statics.validateTags`: `this.find()` then compare the number
of documents in the collection with the number of supplied ids. -/
def validateTags (s : TagStore) (tagIds : List Nat) : Bool :=
  s.tags.length == tagIds.length

end TagStore

/-- Modelled from the spec: the Answer model (`server/models/answers`) is not
in the sources, only its test suite.  Per §3/§4.3 an answer carries its text,
author, timestamp, the up/down-voter id sets (user ids, stored as strings)
and a comment id list defaulting to empty. -/
structure Answer where
  _id : Nat
  text : String
  ans_by : String
  ans_date_time : Nat
  upVotes : List String
  downVotes : List String
  comments : List Nat
deriving Repr, DecidableEq

/-- Remove a user id from a vote set (the sets are modelled as lists; removal
takes out every occurrence, as removal from a set does). -/
def removeVote (votes : List String) (userId : String) : List String :=
  votes.filter (fun v => !(v == userId))

namespace Answer

/-- Modelled from the spec: `findByIdAndAddUpvote` toggle semantics on one
answer — if userId is already in upVotes remove it (un-vote); otherwise add
it to upVotes and remove it from downVotes if present. -/
def addUpvote (a : Answer) (userId : String) : Answer :=
  if userId ∈ a.upVotes then
    { a with upVotes := removeVote a.upVotes userId }
  else
    { a with upVotes := a.upVotes ++ [userId],
             downVotes := removeVote a.downVotes userId }

/-- Modelled from the spec: `findByIdAndAddDownvote`, the symmetric toggle on
downVotes, removing from upVotes if present. -/
def addDownvote (a : Answer) (userId : String) : Answer :=
  if userId ∈ a.downVotes then
    { a with downVotes := removeVote a.downVotes userId }
  else
    { a with downVotes := a.downVotes ++ [userId],
             upVotes := removeVote a.upVotes userId }

end Answer

/-- The Answers collection. -/
def AnswerStore := List Answer

/-- Modelled from the spec: `findByIdAndAddUpvote(answerId, userId)` — null if
answerId does not resolve; otherwise apply the upvote toggle to that document
and return the updated answer together with the updated store. -/
def findByIdAndAddUpvote (s : List Answer) (answerId : Nat) (userId : String) :
    Option Answer × List Answer :=
  match s.find? (fun a => a._id == answerId) with
  | none => (none, s)
  | some a =>
      let a' := a.addUpvote userId
      (some a', s.map (fun b => if b._id == answerId then a' else b))

/-- Modelled from the spec: `findByIdAndAddDownvote(answerId, userId)`,
symmetric to `findByIdAndAddUpvote`. -/
def findByIdAndAddDownvote (s : List Answer) (answerId : Nat) (userId : String) :
    Option Answer × List Answer :=
  match s.find? (fun a => a._id == answerId) with
  | none => (none, s)
  | some a =>
      let a' := a.addDownvote userId
      (some a', s.map (fun b => if b._id == answerId then a' else b))

/-- One vote operation against the Answers collection, for stating
invariants over arbitrary operation sequences. -/
inductive VoteOp where
  | up (answerId : Nat) (userId : String)
  | down (answerId : Nat) (userId : String)
deriving Repr, DecidableEq

/-- Apply one vote operation to the store (dropping the returned document). -/
def applyVoteOp (s : List Answer) (op : VoteOp) : List Answer :=
  match op with
  | .up answerId userId => (findByIdAndAddUpvote s answerId userId).2
  | .down answerId userId => (findByIdAndAddDownvote s answerId userId).2

/-- Apply a sequence of vote operations in order. -/
def applyVoteOps (s : List Answer) (ops : List VoteOp) : List Answer :=
  ops.foldl applyVoteOp s

/-- A user id is in at most one of the two vote sets of an answer. -/
def VoteSetsDisjoint (a : Answer) : Prop :=
  ∀ u : String, ¬(u ∈ a.upVotes ∧ u ∈ a.downVotes)

/-- Modelled from the spec: a Question document (`server/models/questions` is
not in the sources, only its test suites).  Per §3/§4.4 it carries title,
text, tag id list, author, timestamp, a view count defaulting to 0 and an
answer id list defaulting to empty. -/
structure Question where
  _id : Nat
  title : String
  text : String
  tags : List Nat
  asked_by : String
  ask_date_time : Nat
  views : Nat
  answers : List Nat
deriving Repr, DecidableEq

namespace Question

/-- Modelled from the spec: `incrementViews()` — increment and persist the
view counter by exactly 1; the returned document is the persisted one. -/
def incrementViews (q : Question) : Question :=
  { q with views := q.views + 1 }

end Question

/-- Modelled from the spec: `findByIdAndIncrementViews(id)` — null if the id
does not resolve; otherwise increment that document's view counter and
return the updated document with the updated store. -/
def findByIdAndIncrementViews (s : List Question) (qid : Nat) :
    Option Question × List Question :=
  match s.find? (fun q => q._id == qid) with
  | none => (none, s)
  | some q =>
      let q' := q.incrementViews
      (some q', s.map (fun b => if b._id == qid then q' else b))

/-- Modelled from the spec: `getQuestionCountByTag()` — for every tag
referenced by at least one question, the count of questions referencing it,
reported as a (name, qcnt) pair with the name resolved in the Tags
collection. -/
def getQuestionCountByTag (tagDocs : List Tag) (qs : List Question) :
    List (String × Nat) :=
  ((qs.flatMap Question.tags).dedup).map (fun tid =>
    (((tagDocs.find? (fun t => t._id == tid)).map Tag.name).getD "",
     (qs.filter (fun q => tid ∈ q.tags)).length))

/-- Modelled from the spec: a User document (`server/models/users` is not in
the sources).  Per §3 it carries username, email and the stored password
hash; the owned-content id lists play no role in login. -/
structure User where
  _id : Nat
  username : String
  email : String
  password : String
deriving Repr, DecidableEq

/-- The observable outcome of a login request: HTTP status, response
message, and whether the session cookie was set. -/
structure LoginResponse where
  status : Nat
  message : String
  setsCookie : Bool
deriving Repr, DecidableEq

/-- Modelled from the spec: the login handler (`server/routers/user` is not
in the sources, only its test suite).  Look the user up by email; if the
email is not found or the hash comparison fails, answer 400 with the generic
"Invalid email or password"; on success answer 200 and set the session
cookie.  The bcrypt comparison is abstracted as a boolean function from
(plaintext password, stored hash). -/
def login (compare : String → String → Bool) (users : List User)
    (email password : String) : LoginResponse :=
  match users.find? (fun u => u.email == email) with
  | none => ⟨400, "Invalid email or password", false⟩
  | some u =>
      if compare password u.password then ⟨200, "Login successful", true⟩
      else ⟨400, "Invalid email or password", false⟩

/-- Repeated application of `Question.incrementViews`, for stating that N
successive calls add exactly N to the view counter. -/
def iterIncrementViews (q : Question) : Nat → Question
  | 0 => q
  | n + 1 => (iterIncrementViews q n).incrementViews

/-- An answer document used to instantiate the vote theorems concretely:
user123 currently holds a downvote. -/
def demoAnswer : Answer :=
  ⟨0, "Test answer", "testuser", 0, [], ["user123"], []⟩

/-- An answer holding an upvote by user123, for instantiating the amended
toggle pair law. -/
def demoAnswerUp : Answer :=
  ⟨1, "Test answer", "testuser", 0, ["user123"], [], []⟩

/-- The two tag documents of the spec's counting scenario. -/
def demoTags : List Tag :=
  [⟨0, "javascript"⟩, ⟨1, "react"⟩]

/-- Scenario question Q1: tagged javascript and react. -/
def demoQ1 : Question :=
  ⟨0, "Q1", "first question", [0, 1], "user1", 0, 5, []⟩

/-- Scenario question Q2: tagged react only. -/
def demoQ2 : Question :=
  ⟨1, "Q2", "second question", [1], "user2", 1, 10, []⟩

/-- The scenario user store: alice, with her stored password hash. -/
def demoUsers : List User :=
  [⟨0, "alice", "alice@x.com", "bcrypt$pw1"⟩]

/-- A stand-in for the bcrypt comparison when instantiating the login
theorem: a hash matches exactly the plaintext it was derived from. -/
def demoCompare (plain stored : String) : Bool :=
  stored == "bcrypt$" ++ plain

/-! ### Basic lemmas about vote-set removal and the toggles -/

theorem mem_removeVote {l : List String} {u v : String} :
    v ∈ removeVote l u ↔ v ∈ l ∧ v ≠ u := by
  simp [removeVote, List.mem_filter]

theorem not_mem_removeVote_self (l : List String) (u : String) :
    u ∉ removeVote l u := by
  intro h
  exact (mem_removeVote.mp h).2 rfl

theorem addUpvote_of_mem {a : Answer} {userId : String}
    (h : userId ∈ a.upVotes) :
    (a.addUpvote userId).upVotes = removeVote a.upVotes userId ∧
    (a.addUpvote userId).downVotes = a.downVotes := by
  rw [Answer.addUpvote, if_pos h]
  exact ⟨rfl, rfl⟩

theorem addUpvote_of_not_mem {a : Answer} {userId : String}
    (h : userId ∉ a.upVotes) :
    (a.addUpvote userId).upVotes = a.upVotes ++ [userId] ∧
    (a.addUpvote userId).downVotes = removeVote a.downVotes userId := by
  rw [Answer.addUpvote, if_neg h]
  exact ⟨rfl, rfl⟩

theorem addDownvote_of_mem {a : Answer} {userId : String}
    (h : userId ∈ a.downVotes) :
    (a.addDownvote userId).downVotes = removeVote a.downVotes userId ∧
    (a.addDownvote userId).upVotes = a.upVotes := by
  rw [Answer.addDownvote, if_pos h]
  exact ⟨rfl, rfl⟩

theorem addDownvote_of_not_mem {a : Answer} {userId : String}
    (h : userId ∉ a.downVotes) :
    (a.addDownvote userId).downVotes = a.downVotes ++ [userId] ∧
    (a.addDownvote userId).upVotes = removeVote a.upVotes userId := by
  rw [Answer.addDownvote, if_neg h]
  exact ⟨rfl, rfl⟩

theorem findByIdAndAddUpvote_none {s : List Answer} {answerId : Nat}
    (userId : String) (h : s.find? (fun a => a._id == answerId) = none) :
    findByIdAndAddUpvote s answerId userId = (none, s) := by
  simp [findByIdAndAddUpvote, h]

theorem findByIdAndAddUpvote_some {s : List Answer} {answerId : Nat} {a : Answer}
    (userId : String) (h : s.find? (fun b => b._id == answerId) = some a) :
    findByIdAndAddUpvote s answerId userId =
      (some (a.addUpvote userId),
       s.map (fun b => if b._id == answerId then a.addUpvote userId else b)) := by
  simp [findByIdAndAddUpvote, h]

theorem findByIdAndAddDownvote_none {s : List Answer} {answerId : Nat}
    (userId : String) (h : s.find? (fun a => a._id == answerId) = none) :
    findByIdAndAddDownvote s answerId userId = (none, s) := by
  simp [findByIdAndAddDownvote, h]

theorem findByIdAndAddDownvote_some {s : List Answer} {answerId : Nat} {a : Answer}
    (userId : String) (h : s.find? (fun b => b._id == answerId) = some a) :
    findByIdAndAddDownvote s answerId userId =
      (some (a.addDownvote userId),
       s.map (fun b => if b._id == answerId then a.addDownvote userId else b)) := by
  simp [findByIdAndAddDownvote, h]

/-! ### Claim theorems -/

/-- C3: `validateTags` returns true exactly when the total number of tag
documents in the store equals the length of the supplied id list, and its
result depends only on the length of the id list, never on which ids are
supplied (no membership check). -/
theorem validateTags_counts_only (s : TagStore) (tagIds : List Nat) :
    (s.validateTags tagIds = true ↔ s.tags.length = tagIds.length) ∧
    (∀ other : List Nat, other.length = tagIds.length →
      s.validateTags other = s.validateTags tagIds) := by
  constructor
  · simp [TagStore.validateTags]
  · intro other h
    simp [TagStore.validateTags, h]

/-- C3 witness: a store with two tags accepts a list of two ids that name no
existing tag, and rejects a singleton list. -/
theorem validateTags_counts_only_witness :
    (TagStore.mk [⟨0, "javascript"⟩, ⟨1, "react"⟩] 2).validateTags [77, 99] = true ∧
    (TagStore.mk [⟨0, "javascript"⟩, ⟨1, "react"⟩] 2).validateTags [0] = false := by
  have h := (validateTags_counts_only (TagStore.mk [⟨0, "javascript"⟩, ⟨1, "react"⟩] 2) [77, 99]).1
  exact ⟨h.mpr (by decide), by decide⟩

/-- C2: `findByIdAndAddUpvote(answerId, userId)` has toggle semantics — when
the id does not resolve it returns null; when it resolves to answer `a` it
returns the toggled answer, where: if userId was already in upVotes it is
removed (other memberships untouched, downVotes unchanged), and otherwise
userId is added to upVotes and removed from downVotes (other memberships
untouched).  Symmetrically for `findByIdAndAddDownvote` on downVotes. -/
theorem vote_toggle_semantics (s : List Answer) (answerId : Nat) (userId : String) :
    (s.find? (fun b => b._id == answerId) = none →
      (findByIdAndAddUpvote s answerId userId).1 = none ∧
      (findByIdAndAddDownvote s answerId userId).1 = none) ∧
    (∀ a, s.find? (fun b => b._id == answerId) = some a →
      (findByIdAndAddUpvote s answerId userId).1 = some (a.addUpvote userId) ∧
      (findByIdAndAddDownvote s answerId userId).1 = some (a.addDownvote userId)) ∧
    (∀ a : Answer,
      (userId ∈ a.upVotes →
        userId ∉ (a.addUpvote userId).upVotes ∧
        (a.addUpvote userId).downVotes = a.downVotes ∧
        ∀ v, v ≠ userId → (v ∈ (a.addUpvote userId).upVotes ↔ v ∈ a.upVotes)) ∧
      (userId ∉ a.upVotes →
        userId ∈ (a.addUpvote userId).upVotes ∧
        userId ∉ (a.addUpvote userId).downVotes ∧
        ∀ v, v ≠ userId →
          ((v ∈ (a.addUpvote userId).upVotes ↔ v ∈ a.upVotes) ∧
           (v ∈ (a.addUpvote userId).downVotes ↔ v ∈ a.downVotes)))) ∧
    (∀ a : Answer,
      (userId ∈ a.downVotes →
        userId ∉ (a.addDownvote userId).downVotes ∧
        (a.addDownvote userId).upVotes = a.upVotes ∧
        ∀ v, v ≠ userId → (v ∈ (a.addDownvote userId).downVotes ↔ v ∈ a.downVotes)) ∧
      (userId ∉ a.downVotes →
        userId ∈ (a.addDownvote userId).downVotes ∧
        userId ∉ (a.addDownvote userId).upVotes ∧
        ∀ v, v ≠ userId →
          ((v ∈ (a.addDownvote userId).downVotes ↔ v ∈ a.downVotes) ∧
           (v ∈ (a.addDownvote userId).upVotes ↔ v ∈ a.upVotes)))) := by
  refine ⟨?_, ?_, ?_, ?_⟩
  · intro h
    exact ⟨by rw [findByIdAndAddUpvote_none userId h],
           by rw [findByIdAndAddDownvote_none userId h]⟩
  · intro a h
    exact ⟨by rw [findByIdAndAddUpvote_some userId h],
           by rw [findByIdAndAddDownvote_some userId h]⟩
  · intro a
    constructor
    · intro h
      obtain ⟨hu, hd⟩ := addUpvote_of_mem h
      refine ⟨by rw [hu]; exact not_mem_removeVote_self _ _, hd, ?_⟩
      intro v hv
      rw [hu, mem_removeVote]
      exact ⟨fun hm => hm.1, fun hm => ⟨hm, hv⟩⟩
    · intro h
      obtain ⟨hu, hd⟩ := addUpvote_of_not_mem h
      refine ⟨by rw [hu]; simp, by rw [hd]; exact not_mem_removeVote_self _ _, ?_⟩
      intro v hv
      constructor
      · rw [hu]; simp [hv]
      · rw [hd, mem_removeVote]
        exact ⟨fun hm => hm.1, fun hm => ⟨hm, hv⟩⟩
  · intro a
    constructor
    · intro h
      obtain ⟨hd, hu⟩ := addDownvote_of_mem h
      refine ⟨by rw [hd]; exact not_mem_removeVote_self _ _, hu, ?_⟩
      intro v hv
      rw [hd, mem_removeVote]
      exact ⟨fun hm => hm.1, fun hm => ⟨hm, hv⟩⟩
    · intro h
      obtain ⟨hd, hu⟩ := addDownvote_of_not_mem h
      refine ⟨by rw [hd]; simp, by rw [hu]; exact not_mem_removeVote_self _ _, ?_⟩
      intro v hv
      constructor
      · rw [hd]; simp [hv]
      · rw [hu, mem_removeVote]
        exact ⟨fun hm => hm.1, fun hm => ⟨hm, hv⟩⟩

/-- C2 witness: on a one-answer store where user123 has a downvote, the
upvote toggle found the answer, put user123 into upVotes and cleared the
downvote; an unresolvable id yields null. -/
theorem vote_toggle_semantics_witness :
    "user123" ∈ (demoAnswer.addUpvote "user123").upVotes ∧
    "user123" ∉ (demoAnswer.addUpvote "user123").downVotes ∧
    (findByIdAndAddUpvote [demoAnswer] 0 "user123").1 =
      some (demoAnswer.addUpvote "user123") ∧
    (findByIdAndAddUpvote [demoAnswer] 7 "user123").1 = none := by
  have h := vote_toggle_semantics [demoAnswer] 0 "user123"
  have h7 := vote_toggle_semantics [demoAnswer] 7 "user123"
  have hup := (h.2.2.1 demoAnswer).2 (by decide)
  exact ⟨hup.1, hup.2.1,
         (h.2.1 demoAnswer (by decide)).1,
         (h7.1 (by decide)).1⟩

theorem addUpvote_disjoint {a : Answer} (h : VoteSetsDisjoint a) (userId : String) :
    VoteSetsDisjoint (a.addUpvote userId) := by
  intro u hu
  by_cases hm : userId ∈ a.upVotes
  · obtain ⟨h1, h2⟩ := addUpvote_of_mem hm
    rw [h1] at hu
    rw [h2] at hu
    exact h u ⟨(mem_removeVote.mp hu.1).1, hu.2⟩
  · obtain ⟨h1, h2⟩ := addUpvote_of_not_mem hm
    rw [h1] at hu
    rw [h2] at hu
    obtain ⟨hup, hdn⟩ := hu
    obtain ⟨hdn', hne⟩ := mem_removeVote.mp hdn
    rcases List.mem_append.mp hup with h' | h'
    · exact h u ⟨h', hdn'⟩
    · exact hne (List.mem_singleton.mp h')

theorem addDownvote_disjoint {a : Answer} (h : VoteSetsDisjoint a) (userId : String) :
    VoteSetsDisjoint (a.addDownvote userId) := by
  intro u hu
  by_cases hm : userId ∈ a.downVotes
  · obtain ⟨h1, h2⟩ := addDownvote_of_mem hm
    rw [h1] at hu
    rw [h2] at hu
    exact h u ⟨hu.1, (mem_removeVote.mp hu.2).1⟩
  · obtain ⟨h1, h2⟩ := addDownvote_of_not_mem hm
    rw [h1] at hu
    rw [h2] at hu
    obtain ⟨hup, hdn⟩ := hu
    obtain ⟨hup', hne⟩ := mem_removeVote.mp hup
    rcases List.mem_append.mp hdn with h' | h'
    · exact h u ⟨hup', h'⟩
    · exact hne (List.mem_singleton.mp h')

theorem update_store_disjoint {s : List Answer} {aid : Nat} {a' : Answer}
    (h : ∀ b ∈ s, VoteSetsDisjoint b) (ha' : VoteSetsDisjoint a') :
    ∀ x ∈ s.map (fun b => if b._id == aid then a' else b), VoteSetsDisjoint x := by
  intro x hx
  obtain ⟨b, hb, hbe⟩ := List.mem_map.mp hx
  by_cases hc : (b._id == aid) = true
  · rw [if_pos hc] at hbe
    subst hbe
    exact ha'
  · rw [if_neg hc] at hbe
    subst hbe
    exact h b hb

theorem applyVoteOp_disjoint {s : List Answer}
    (h : ∀ a ∈ s, VoteSetsDisjoint a) (op : VoteOp) :
    ∀ a ∈ applyVoteOp s op, VoteSetsDisjoint a := by
  cases op with
  | up aid uid =>
      intro a ha
      rw [applyVoteOp] at ha
      cases hfind : s.find? (fun b => b._id == aid) with
      | none =>
          rw [findByIdAndAddUpvote_none uid hfind] at ha
          exact h a ha
      | some b =>
          rw [findByIdAndAddUpvote_some uid hfind] at ha
          exact update_store_disjoint h
            (addUpvote_disjoint (h b (List.mem_of_find?_eq_some hfind)) uid) a ha
  | down aid uid =>
      intro a ha
      rw [applyVoteOp] at ha
      cases hfind : s.find? (fun b => b._id == aid) with
      | none =>
          rw [findByIdAndAddDownvote_none uid hfind] at ha
          exact h a ha
      | some b =>
          rw [findByIdAndAddDownvote_some uid hfind] at ha
          exact update_store_disjoint h
            (addDownvote_disjoint (h b (List.mem_of_find?_eq_some hfind)) uid) a ha

/-- C1: starting from a store whose answers all have disjoint vote sets,
after any sequence of upvote/downvote operations no user id is ever in an
answer's upvoter set and downvoter set at the same time. -/
theorem vote_sequences_preserve_disjoint (s : List Answer) (ops : List VoteOp)
    (h : ∀ a ∈ s, VoteSetsDisjoint a) :
    ∀ a ∈ applyVoteOps s ops, ∀ u : String,
      ¬(u ∈ a.upVotes ∧ u ∈ a.downVotes) := by
  induction ops generalizing s with
  | nil => exact fun a ha => h a ha
  | cons op ops ih =>
      intro a ha
      exact ih (applyVoteOp s op) (applyVoteOp_disjoint h op) a ha

/-- C1 witness: after the concrete run upvote, downvote, upvote-by-u2 on a
one-answer store, the answer document (now upVotes [u2], downVotes [user123])
does not hold user123 in both sets. -/
theorem vote_sequences_preserve_disjoint_witness :
    ¬("user123" ∈ (⟨0, "Test answer", "testuser", 0, ["u2"], ["user123"], []⟩ :
        Answer).upVotes ∧
      "user123" ∈ (⟨0, "Test answer", "testuser", 0, ["u2"], ["user123"], []⟩ :
        Answer).downVotes) := by
  have h := vote_sequences_preserve_disjoint [demoAnswer]
    [.up 0 "user123", .down 0 "user123", .up 0 "u2"]
    (by
      intro a ha u hu
      rw [List.mem_singleton] at ha
      subst ha
      simp [demoAnswer] at hu)
  exact h ⟨0, "Test answer", "testuser", 0, ["u2"], ["user123"], []⟩
    (by decide) "user123"

theorem removeVote_of_not_mem {l : List String} {u : String} (h : u ∉ l) :
    removeVote l u = l := by
  rw [removeVote, List.filter_eq_self]
  intro v hv
  simp only [Bool.not_eq_eq_eq_not, Bool.not_true, beq_eq_false_iff_ne]
  intro he
  exact h (he ▸ hv)

theorem find?_update {s : List Answer} {aid : Nat} {a a' : Answer}
    (hid : a'._id = a._id) (hf : s.find? (fun b => b._id == aid) = some a) :
    (s.map (fun b => if b._id == aid then a' else b)).find?
      (fun b => b._id == aid) = some a' := by
  induction s with
  | nil => simp at hf
  | cons b s ih =>
      by_cases hb : (b._id == aid) = true
      · simp only [List.find?_cons_eq_some, hb, Bool.not_true, Bool.false_eq_true,
          false_and, or_false, true_and] at hf
        have ha' : (a'._id == aid) = true := by
          rw [hid, ← hf]
          exact hb
        simp only [List.map_cons, if_pos hb]
        exact List.find?_cons_of_pos _ ha'
      · simp [List.find?_cons_eq_some, hb] at hf
        simp only [List.map_cons, if_neg hb]
        exact Eq.trans (List.find?_cons_of_neg _ hb) (ih hf)

/-- C5 counterexample: the toggle idempotent-pair law fails as stated.  On an
answer whose downvoter set is exactly {user123}, two successive calls of
`findByIdAndAddUpvote` leave the downvoter set empty — not the original
state: the first call consumed the downvote when switching it to an upvote. -/
theorem upvote_twice_not_identity :
    (findByIdAndAddUpvote
        (findByIdAndAddUpvote [demoAnswer] 0 "user123").2 0 "user123").2 =
      [{ demoAnswer with downVotes := [] }] ∧
    demoAnswer.downVotes = ["user123"] ∧
    ({ demoAnswer with downVotes := [] } : Answer) ≠ demoAnswer := by
  refine ⟨by decide, rfl, ?_⟩
  intro h
  have := congrArg Answer.downVotes h
  simp [demoAnswer] at this

/-- C5 (amended): the pair law holds whenever the user id is not among the
answer's downvoters beforehand (in particular whenever it already upvoted, or
never voted): applying `findByIdAndAddUpvote` twice returns an answer whose
upvoter and downvoter sets have exactly the members they had before the
first call. -/
theorem upvote_twice_restores (s : List Answer) (aid : Nat) (uid : String)
    (a : Answer) (hf : s.find? (fun b => b._id == aid) = some a)
    (hd : uid ∉ a.downVotes) :
    (findByIdAndAddUpvote (findByIdAndAddUpvote s aid uid).2 aid uid).1 =
      some ((a.addUpvote uid).addUpvote uid) ∧
    (∀ v, v ∈ ((a.addUpvote uid).addUpvote uid).upVotes ↔ v ∈ a.upVotes) ∧
    (∀ v, v ∈ ((a.addUpvote uid).addUpvote uid).downVotes ↔ v ∈ a.downVotes) := by
  have hid1 : (a.addUpvote uid)._id = a._id := by
    rw [Answer.addUpvote]
    by_cases h : uid ∈ a.upVotes
    · rw [if_pos h]
    · rw [if_neg h]
  have hf1 : (findByIdAndAddUpvote s aid uid).2.find? (fun b => b._id == aid) =
      some (a.addUpvote uid) := by
    rw [findByIdAndAddUpvote_some uid hf]
    exact find?_update hid1 hf
  refine ⟨?_, ?_, ?_⟩
  · rw [findByIdAndAddUpvote_some uid hf1]
  · intro v
    by_cases hm : uid ∈ a.upVotes
    · -- first call removes uid, second call appends it again
      obtain ⟨h1u, h1d⟩ := addUpvote_of_mem hm
      have hnot : uid ∉ (a.addUpvote uid).upVotes := by
        rw [h1u]
        exact not_mem_removeVote_self _ _
      obtain ⟨h2u, _⟩ := addUpvote_of_not_mem hnot
      rw [h2u, h1u, List.mem_append, mem_removeVote, List.mem_singleton]
      constructor
      · rintro (⟨hv, _⟩ | hv)
        · exact hv
        · exact hv ▸ hm
      · intro hv
        by_cases he : v = uid
        · exact Or.inr he
        · exact Or.inl ⟨hv, he⟩
    · -- first call appends uid, second call removes it
      obtain ⟨h1u, _⟩ := addUpvote_of_not_mem hm
      have hyes : uid ∈ (a.addUpvote uid).upVotes := by
        rw [h1u]
        simp
      obtain ⟨h2u, _⟩ := addUpvote_of_mem hyes
      rw [h2u, h1u, mem_removeVote, List.mem_append, List.mem_singleton]
      constructor
      · rintro ⟨hv | hv, hne⟩
        · exact hv
        · exact absurd hv hne
      · intro hv
        refine ⟨Or.inl hv, ?_⟩
        intro he
        exact hm (he ▸ hv)
  · intro v
    by_cases hm : uid ∈ a.upVotes
    · obtain ⟨h1u, h1d⟩ := addUpvote_of_mem hm
      have hnot : uid ∉ (a.addUpvote uid).upVotes := by
        rw [h1u]
        exact not_mem_removeVote_self _ _
      obtain ⟨_, h2d⟩ := addUpvote_of_not_mem hnot
      rw [h2d, h1d, removeVote_of_not_mem hd]
    · obtain ⟨h1u, h1d⟩ := addUpvote_of_not_mem hm
      have hyes : uid ∈ (a.addUpvote uid).upVotes := by
        rw [h1u]
        simp
      obtain ⟨_, h2d⟩ := addUpvote_of_mem hyes
      rw [h2d, h1d, removeVote_of_not_mem hd]

/-- C5 witness: on an answer that already has user123 in upVotes and an empty
downvoter set, two upvote toggles restore user123's memberships exactly. -/
theorem upvote_twice_restores_witness :
    (findByIdAndAddUpvote (findByIdAndAddUpvote [demoAnswerUp] 1 "user123").2
        1 "user123").1 =
      some ((demoAnswerUp.addUpvote "user123").addUpvote "user123") ∧
    ("user123" ∈ ((demoAnswerUp.addUpvote "user123").addUpvote "user123").upVotes ↔
      "user123" ∈ demoAnswerUp.upVotes) ∧
    ("user123" ∈ ((demoAnswerUp.addUpvote "user123").addUpvote "user123").downVotes ↔
      "user123" ∈ demoAnswerUp.downVotes) :=
  have h := upvote_twice_restores [demoAnswerUp] 1 "user123" demoAnswerUp
    (by decide) (by decide)
  ⟨h.1, h.2.1 "user123", h.2.2 "user123"⟩

/-- C7: N successive `incrementViews` calls yield views = initial + N; and
`findByIdAndIncrementViews` returns null when the id does not resolve, and
otherwise increments that question's counter by exactly 1, returning the
document as persisted in the updated store. -/
theorem incrementViews_adds_one (s : List Question) (qid : Nat) (q : Question)
    (n : Nat) :
    ((iterIncrementViews q n).views = q.views + n) ∧
    (s.find? (fun b => b._id == qid) = none →
      findByIdAndIncrementViews s qid = (none, s)) ∧
    (s.find? (fun b => b._id == qid) = some q →
      (findByIdAndIncrementViews s qid).1 = some q.incrementViews ∧
      q.incrementViews.views = q.views + 1 ∧
      q.incrementViews ∈ (findByIdAndIncrementViews s qid).2) := by
  refine ⟨?_, ?_, ?_⟩
  · induction n with
    | zero => rfl
    | succ m ih =>
        show (iterIncrementViews q m).incrementViews.views = q.views + (m + 1)
        exact congrArg Nat.succ ih
  · intro h
    simp [findByIdAndIncrementViews, h]
  · intro h
    have hq := List.find?_some h
    refine ⟨by simp [findByIdAndIncrementViews, h], rfl, ?_⟩
    simp only [findByIdAndIncrementViews, h]
    exact List.mem_map.mpr ⟨q, List.mem_of_find?_eq_some h, by rw [if_pos hq]⟩

/-- C7 witness: three increments on Q1 (views 5) give views 8; the store
operation bumps Q1 from 5 to 6 and persists it; an unresolvable id yields
null and leaves the store unchanged. -/
theorem incrementViews_adds_one_witness :
    (iterIncrementViews demoQ1 3).views = demoQ1.views + 3 ∧
    (findByIdAndIncrementViews [demoQ1] 0).1 = some demoQ1.incrementViews ∧
    demoQ1.incrementViews ∈ (findByIdAndIncrementViews [demoQ1] 0).2 ∧
    findByIdAndIncrementViews [demoQ1] 99 = (none, [demoQ1]) := by
  have h0 := incrementViews_adds_one [demoQ1] 0 demoQ1 3
  have h99 := incrementViews_adds_one [demoQ1] 99 demoQ1 3
  have hsome := h0.2.2 (by decide)
  exact ⟨h0.1, hsome.1, hsome.2.2, h99.2.1 (by decide)⟩

/-- C8: login looks the user up by email; when the email resolves to no user
and when the stored-hash comparison fails it produces the identical generic
response (status 400, "Invalid email or password", no cookie), and with a
successful comparison it answers 200 "Login successful" with the session
cookie set. -/
theorem login_generic_auth_error (compare : String → String → Bool)
    (users : List User) (email password : String) :
    (users.find? (fun u => u.email == email) = none →
      login compare users email password =
        ⟨400, "Invalid email or password", false⟩) ∧
    (∀ u, users.find? (fun v => v.email == email) = some u →
      (compare password u.password = false →
        login compare users email password =
          ⟨400, "Invalid email or password", false⟩) ∧
      (compare password u.password = true →
        login compare users email password =
          ⟨200, "Login successful", true⟩)) := by
  refine ⟨?_, ?_⟩
  · intro h
    simp [login, h]
  · intro u h
    exact ⟨fun hc => by simp [login, h, hc], fun hc => by simp [login, h, hc]⟩

/-- C8 witness: the alice scenario — correct password logs in and sets the
cookie; a wrong password and an unknown email produce the same generic 400
response. -/
theorem login_generic_auth_error_witness :
    login demoCompare demoUsers "alice@x.com" "pw1" =
      ⟨200, "Login successful", true⟩ ∧
    login demoCompare demoUsers "alice@x.com" "wrong" =
      ⟨400, "Invalid email or password", false⟩ ∧
    login demoCompare demoUsers "bob@x.com" "pw1" =
      ⟨400, "Invalid email or password", false⟩ := by
  have h1 := login_generic_auth_error demoCompare demoUsers "alice@x.com" "pw1"
  have h2 := login_generic_auth_error demoCompare demoUsers "alice@x.com" "wrong"
  have h3 := login_generic_auth_error demoCompare demoUsers "bob@x.com" "pw1"
  exact ⟨(h1.2 ⟨0, "alice", "alice@x.com", "bcrypt$pw1"⟩ (by decide)).2 (by decide),
         (h2.2 ⟨0, "alice", "alice@x.com", "bcrypt$pw1"⟩ (by decide)).1 (by decide),
         h3.1 (by decide)⟩

/-! ### The tag store: findOrCreateMany -/

theorem find?_append_some {α : Type} {l₁ l₂ : List α} {p : α → Bool} {t : α}
    (h : l₁.find? p = some t) : (l₁ ++ l₂).find? p = some t := by
  rw [List.find?_append, h]
  rfl

theorem find?_append_none_left {α : Type} {l₁ l₂ : List α} {p : α → Bool}
    (h : (l₁ ++ l₂).find? p = none) : l₁.find? p = none := by
  rw [List.find?_append, Option.or_eq_none] at h
  exact h.1

theorem findOrCreateMany_nil (s : TagStore) : s.findOrCreateMany [] = ([], s) :=
  rfl

theorem findOrCreateMany_cons_found {s : TagStore} {n : String} {t : Tag}
    (rest : List String) (h : s.findOneByName n = some t) :
    s.findOrCreateMany (n :: rest) =
      (t :: (s.findOrCreateMany rest).1, (s.findOrCreateMany rest).2) := by
  simp only [TagStore.findOrCreateMany, h]

theorem findOrCreateMany_cons_new {s : TagStore} {n : String}
    (rest : List String) (h : s.findOneByName n = none) :
    s.findOrCreateMany (n :: rest) =
      ((⟨s.nextId, n⟩ : Tag) ::
         ((TagStore.mk (s.tags ++ [⟨s.nextId, n⟩]) (s.nextId + 1)).findOrCreateMany rest).1,
       ((TagStore.mk (s.tags ++ [⟨s.nextId, n⟩]) (s.nextId + 1)).findOrCreateMany rest).2) := by
  simp only [TagStore.findOrCreateMany, TagStore.create, h]

theorem findOneByName_name_eq {s : TagStore} {n : String} {t : Tag}
    (h : s.findOneByName n = some t) : t.name = n := by
  have := List.find?_some h
  exact eq_of_beq this

theorem findOneByName_mem {s : TagStore} {n : String} {t : Tag}
    (h : s.findOneByName n = some t) : t ∈ s.tags :=
  List.mem_of_find?_eq_some h

theorem findOneByName_after_create {s : TagStore} {n : String}
    (h : s.findOneByName n = none) :
    (TagStore.mk (s.tags ++ [⟨s.nextId, n⟩]) (s.nextId + 1)).findOneByName n =
      some ⟨s.nextId, n⟩ := by
  rw [TagStore.findOneByName] at h ⊢
  rw [List.find?_append, h]
  simp

/-- The combined behavioural invariant of `findOrCreateMany`, proved once by
induction: the result names match the input positionally; the store grows by
a suffix of freshly created tags with pairwise distinct names that were all
absent initially; `findOne` answers are stable; and every returned tag is
the one `findOne` yields in the final store, and is stored there. -/
theorem findOrCreateMany_master (names : List String) (s : TagStore) :
    ((s.findOrCreateMany names).1.map Tag.name = names) ∧
    (∃ created : List Tag,
       (s.findOrCreateMany names).2.tags = s.tags ++ created ∧
       (created.map Tag.name).Nodup ∧
       ∀ c ∈ created, c.name ∈ names ∧ s.nextId ≤ c._id ∧
         s.findOneByName c.name = none) ∧
    (s.nextId ≤ (s.findOrCreateMany names).2.nextId) ∧
    (∀ n t, s.findOneByName n = some t →
       (s.findOrCreateMany names).2.findOneByName n = some t) ∧
    (∀ r ∈ (s.findOrCreateMany names).1,
       (s.findOrCreateMany names).2.findOneByName r.name = some r) ∧
    (∀ r ∈ (s.findOrCreateMany names).1, r ∈ (s.findOrCreateMany names).2.tags) := by
  induction names generalizing s with
  | nil =>
      refine ⟨rfl, ⟨[], by simp [findOrCreateMany_nil], by simp, by simp⟩,
              le_refl _, ?_, ?_, ?_⟩
      · intro n t h
        exact h
      · intro r hr
        simp [findOrCreateMany_nil] at hr
      · intro r hr
        simp [findOrCreateMany_nil] at hr
  | cons n rest ih =>
      cases hfind : s.findOneByName n with
      | some t =>
          have hrw := findOrCreateMany_cons_found rest hfind
          obtain ⟨ihmap, ⟨created, hctags, hcnodup, hcmem⟩, ihnext, ihstab,
                  ihres, ihmem⟩ := ih s
          have hname : t.name = n := findOneByName_name_eq hfind
          refine ⟨?_, ⟨created, ?_, hcnodup, ?_⟩, ?_, ?_, ?_, ?_⟩
          · rw [hrw]
            simp [hname, ihmap]
          · rw [hrw]
            exact hctags
          · intro c hc
            obtain ⟨h1, h2, h3⟩ := hcmem c hc
            exact ⟨List.mem_cons_of_mem _ h1, h2, h3⟩
          · rw [hrw]
            exact ihnext
          · intro n' t' h'
            rw [hrw]
            exact ihstab n' t' h'
          · intro r hr
            rw [hrw] at hr ⊢
            rcases List.mem_cons.mp hr with h' | h'
            · subst h'
              rw [hname]
              exact ihstab n r hfind
            · exact ihres r h'
          · intro r hr
            rw [hrw] at hr ⊢
            rcases List.mem_cons.mp hr with h' | h'
            · subst h'
              rw [hctags]
              exact List.mem_append_left _ (findOneByName_mem hfind)
            · exact ihmem r h'
      | none =>
          have hrw := findOrCreateMany_cons_new rest hfind
          set s1 : TagStore :=
            TagStore.mk (s.tags ++ [⟨s.nextId, n⟩]) (s.nextId + 1) with hs1
          obtain ⟨ihmap, ⟨created, hctags, hcnodup, hcmem⟩, ihnext, ihstab,
                  ihres, ihmem⟩ := ih s1
          have hnew : s1.findOneByName n = some ⟨s.nextId, n⟩ :=
            findOneByName_after_create hfind
          refine ⟨?_, ⟨⟨s.nextId, n⟩ :: created, ?_, ?_, ?_⟩, ?_, ?_, ?_, ?_⟩
          · rw [hrw]
            simp [ihmap]
          · rw [hrw, hctags, hs1]
            simp
          · rw [List.map_cons, List.nodup_cons]
            refine ⟨?_, hcnodup⟩
            intro hmem
            obtain ⟨c, hc, hcn⟩ := List.mem_map.mp hmem
            have h3 := (hcmem c hc).2.2
            rw [hcn] at h3
            rw [hnew] at h3
            exact Option.noConfusion h3
          · intro c hc
            rcases List.mem_cons.mp hc with h' | h'
            · subst h'
              exact ⟨List.mem_cons_self _ _, le_refl _, hfind⟩
            · obtain ⟨h1, h2, h3⟩ := hcmem c h'
              refine ⟨List.mem_cons_of_mem _ h1, ?_, ?_⟩
              · calc s.nextId ≤ s.nextId + 1 := Nat.le_succ _
                  _ = s1.nextId := rfl
                  _ ≤ c._id := h2
              · exact find?_append_none_left h3
          · rw [hrw]
            calc s.nextId ≤ s1.nextId := Nat.le_succ _
              _ ≤ _ := ihnext
          · intro n' t' h'
            rw [hrw]
            exact ihstab n' t' (find?_append_some h')
          · intro r hr
            rw [hrw] at hr ⊢
            rcases List.mem_cons.mp hr with h' | h'
            · subst h'
              exact ihstab n _ hnew
            · exact ihres r h'
          · intro r hr
            rw [hrw] at hr ⊢
            rcases List.mem_cons.mp hr with h' | h'
            · subst h'
              rw [hctags]
              refine List.mem_append_left _ ?_
              rw [hs1]
              simp
            · exact ihmem r h'

/-- C4: `findOrCreateMany` processes names in input order — the returned
tags' names match the input list positionally; a name that already has a tag
in the store yields exactly that tag at every result position carrying the
name; a name with no existing tag yields a freshly created tag (id at or
above the store's id counter) which is persisted. -/
theorem findOrCreateMany_order (s : TagStore) (names : List String) :
    ((s.findOrCreateMany names).1.map Tag.name = names) ∧
    (∀ n t, s.findOneByName n = some t →
      ∀ r ∈ (s.findOrCreateMany names).1, r.name = n → r = t) ∧
    (∀ n ∈ names, s.findOneByName n = none →
      ∃ r ∈ (s.findOrCreateMany names).1,
        r.name = n ∧ s.nextId ≤ r._id ∧ r ∈ (s.findOrCreateMany names).2.tags) := by
  obtain ⟨hmap, ⟨created, hctags, hcnodup, hcmem⟩, hnext, hstab, hres, hmem⟩ :=
    findOrCreateMany_master names s
  refine ⟨hmap, ?_, ?_⟩
  · intro n t ht r hr hrn
    have h1 := hres r hr
    have h2 := hstab n t ht
    rw [hrn] at h1
    rw [h1] at h2
    exact Option.some.inj h2
  · intro n hn hnone
    have hn' : n ∈ (s.findOrCreateMany names).1.map Tag.name := by
      rw [hmap]
      exact hn
    obtain ⟨r, hr, hrn⟩ := List.mem_map.mp hn'
    refine ⟨r, hr, hrn, ?_, hmem r hr⟩
    have hrtags := hmem r hr
    rw [hctags] at hrtags
    rcases List.mem_append.mp hrtags with hcase | hcase
    · exfalso
      have hsome : (s.tags.find? (fun t => t.name == n)).isSome :=
        List.find?_isSome.mpr ⟨r, hcase, by rw [hrn]; exact beq_self_eq_true n⟩
      rw [TagStore.findOneByName] at hnone
      rw [hnone] at hsome
      simp at hsome
    · exact (hcmem r hcase).2.1

/-- C4 witness: with a store already holding tag 0 "javascript", the call on
["javascript", "react"] returns names in input order, returns exactly the
stored tag 0 wherever the result entry is named "javascript", and creates
and persists a fresh tag for "react". -/
theorem findOrCreateMany_order_witness :
    (((TagStore.mk [⟨0, "javascript"⟩] 1).findOrCreateMany
        ["javascript", "react"]).1.map Tag.name = ["javascript", "react"]) ∧
    ((⟨0, "javascript"⟩ : Tag) = ⟨0, "javascript"⟩) ∧
    (∃ r ∈ ((TagStore.mk [⟨0, "javascript"⟩] 1).findOrCreateMany
        ["javascript", "react"]).1,
      r.name = "react" ∧ 1 ≤ r._id ∧
      r ∈ ((TagStore.mk [⟨0, "javascript"⟩] 1).findOrCreateMany
        ["javascript", "react"]).2.tags) := by
  have h := findOrCreateMany_order (TagStore.mk [⟨0, "javascript"⟩] 1)
    ["javascript", "react"]
  exact ⟨h.1,
         h.2.1 "javascript" ⟨0, "javascript"⟩ (by decide) ⟨0, "javascript"⟩
           (by decide) rfl,
         h.2.2 "react" (by decide) (by decide)⟩

/-- C9: the result list has exactly the input's length; two result entries
with the same name are the same tag (so duplicate input names all receive
the id of the one tag); and the store grows only by a suffix of created tags
whose names are pairwise distinct — at most one document is ever created per
name in a single call. -/
theorem findOrCreateMany_no_dup_creation (s : TagStore) (names : List String) :
    ((s.findOrCreateMany names).1.length = names.length) ∧
    (∀ r1 ∈ (s.findOrCreateMany names).1, ∀ r2 ∈ (s.findOrCreateMany names).1,
       r1.name = r2.name → r1 = r2) ∧
    (∃ created : List Tag,
       (s.findOrCreateMany names).2.tags = s.tags ++ created ∧
       (created.map Tag.name).Nodup) := by
  obtain ⟨hmap, ⟨created, hctags, hcnodup, _⟩, _, _, hres, _⟩ :=
    findOrCreateMany_master names s
  refine ⟨?_, ?_, created, hctags, hcnodup⟩
  · calc (s.findOrCreateMany names).1.length
        = ((s.findOrCreateMany names).1.map Tag.name).length :=
          (List.length_map _ _).symm
      _ = names.length := congrArg List.length hmap
  · intro r1 h1 r2 h2 hn
    have e1 := hres r1 h1
    have e2 := hres r2 h2
    rw [hn] at e1
    rw [e2] at e1
    exact (Option.some.inj e1).symm

/-- Once every name resolves in the store, `findOrCreateMany` creates
nothing: it leaves the store untouched and each result entry is the
`findOne` answer for the corresponding name. -/
theorem findOrCreateMany_all_found (s : TagStore) (names : List String)
    (h : ∀ n ∈ names, ∃ t, s.findOneByName n = some t) :
    (s.findOrCreateMany names).2 = s ∧
    List.Forall₂ (fun n r => s.findOneByName n = some r) names
      (s.findOrCreateMany names).1 := by
  induction names with
  | nil => exact ⟨rfl, List.Forall₂.nil⟩
  | cons n rest ih =>
      obtain ⟨t, ht⟩ := h n (List.mem_cons_self _ _)
      have hrw := findOrCreateMany_cons_found rest ht
      obtain ⟨ih1, ih2⟩ := ih (fun m hm => h m (List.mem_cons_of_mem _ hm))
      rw [hrw]
      exact ⟨ih1, List.Forall₂.cons ht ih2⟩

theorem forall2_functional {R : String → Tag → Prop}
    (hfun : ∀ n a b, R n a → R n b → a = b) :
    ∀ {names : List String} {l1 l2 : List Tag},
      List.Forall₂ R names l1 → List.Forall₂ R names l2 → l1 = l2 := by
  intro names
  induction names with
  | nil =>
      intro l1 l2 h1 h2
      cases h1
      cases h2
      rfl
  | cons n rest ih =>
      intro l1 l2 h1 h2
      cases h1 with
      | cons hr1 ht1 =>
          cases h2 with
          | cons hr2 ht2 =>
              rw [hfun n _ _ hr1 hr2, ih ht1 ht2]

theorem forall2_of_found (s' : TagStore) :
    ∀ res : List Tag, (∀ r ∈ res, s'.findOneByName r.name = some r) →
      List.Forall₂ (fun n r => s'.findOneByName n = some r)
        (res.map Tag.name) res := by
  intro res
  induction res with
  | nil =>
      intro _
      exact List.Forall₂.nil
  | cons r rest ih =>
      intro h
      exact List.Forall₂.cons (h r (List.mem_cons_self _ _))
        (ih fun x hx => h x (List.mem_cons_of_mem _ hx))

/-- C10: `findOrCreateMany` is idempotent — running it a second time with the
same names from the store the first run produced changes no tag documents
and returns exactly the same (id, name) pairs as the first run. -/
theorem findOrCreateMany_idempotent (s : TagStore) (names : List String) :
    ((s.findOrCreateMany names).2.findOrCreateMany names).2 =
      (s.findOrCreateMany names).2 ∧
    ((s.findOrCreateMany names).2.findOrCreateMany names).1 =
      (s.findOrCreateMany names).1 := by
  obtain ⟨hmap, _, _, _, hres, _⟩ := findOrCreateMany_master names s
  have hex : ∀ n ∈ names, ∃ t, (s.findOrCreateMany names).2.findOneByName n = some t := by
    intro n hn
    have hn2 : n ∈ (s.findOrCreateMany names).1.map Tag.name := by
      rw [hmap]
      exact hn
    obtain ⟨r, hr, hrn⟩ := List.mem_map.mp hn2
    refine ⟨r, ?_⟩
    rw [← hrn]
    exact hres r hr
  obtain ⟨hstore, hF2⟩ := findOrCreateMany_all_found _ names hex
  have hF1 := forall2_of_found (s.findOrCreateMany names).2
    (s.findOrCreateMany names).1 hres
  rw [hmap] at hF1
  refine ⟨hstore, forall2_functional ?_ hF2 hF1⟩
  intro n a b ha hb
  rw [ha] at hb
  exact Option.some.inj hb

/-! ### Counting questions by tag -/

theorem sum_map_add {α : Type} (l : List α) (f g : α → Nat) :
    (l.map (fun x => f x + g x)).sum = (l.map f).sum + (l.map g).sum := by
  induction l with
  | nil => rfl
  | cons x l ih =>
      simp only [List.map_cons, List.sum_cons, ih]
      omega

theorem sum_map_indicator {α : Type} (l : List α) (p : α → Bool) :
    (l.map (fun x => if p x then 1 else 0)).sum = (l.filter p).length := by
  induction l with
  | nil => rfl
  | cons x l ih =>
      by_cases h : p x = true
      · simp [List.filter_cons, h, ih]
        omega
      · simp [List.filter_cons, h, ih]

theorem length_filter_mem {T tags : List Nat} (hT : T.Nodup)
    (hsub : ∀ t ∈ tags, t ∈ T) :
    (T.filter (fun tid => decide (tid ∈ tags))).length = tags.dedup.length := by
  have hperm : List.Perm (T.filter (fun tid => decide (tid ∈ tags))) tags.dedup := by
    rw [List.perm_ext_iff_of_nodup (hT.filter _) (List.nodup_dedup _)]
    intro a
    simp only [List.mem_filter, decide_eq_true_eq, List.mem_dedup]
    exact ⟨fun h => h.2, fun h => ⟨hsub a h, h⟩⟩
  exact hperm.length_eq

theorem sum_counts_eq_total (T : List Nat) (qs : List Question)
    (hT : T.Nodup) (hsub : ∀ q ∈ qs, ∀ t ∈ q.tags, t ∈ T) :
    (T.map (fun tid => (qs.filter (fun q => decide (tid ∈ q.tags))).length)).sum =
      (qs.map (fun q => q.tags.dedup.length)).sum := by
  induction qs with
  | nil => simp
  | cons q qs ih =>
      have hstep : ∀ tid ∈ T,
          ((q :: qs).filter (fun x => decide (tid ∈ x.tags))).length =
          (if decide (tid ∈ q.tags) then 1 else 0) +
            (qs.filter (fun x => decide (tid ∈ x.tags))).length := by
        intro tid _
        by_cases h : tid ∈ q.tags
        · simp [List.filter_cons, h]
          omega
        · simp [List.filter_cons, h]
      rw [List.map_congr_left hstep, sum_map_add, sum_map_indicator]
      have hq : (T.filter (fun tid => decide (tid ∈ q.tags))).length =
          q.tags.dedup.length :=
        length_filter_mem hT (hsub q (List.mem_cons_self _ _))
      rw [hq, ih (fun x hx => hsub x (List.mem_cons_of_mem _ hx))]
      simp

/-- C6: over every store, the qcnt values of `getQuestionCountByTag` sum to
the total number of distinct (question, tag) reference pairs across all
questions; and on the spec's scenario — tags javascript and react, Q1
tagged with both, Q2 tagged react only — it returns javascript:1 and
react:2. -/
theorem questionCountByTag_sum (tagDocs : List Tag) (qs : List Question) :
    ((getQuestionCountByTag tagDocs qs).map Prod.snd).sum =
      (qs.map (fun q => q.tags.dedup.length)).sum ∧
    getQuestionCountByTag demoTags [demoQ1, demoQ2] =
      [("javascript", 1), ("react", 2)] := by
  constructor
  · rw [getQuestionCountByTag, List.map_map]
    show (((qs.flatMap Question.tags).dedup).map
        (fun tid => (qs.filter (fun q => decide (tid ∈ q.tags))).length)).sum = _
    refine sum_counts_eq_total _ qs (List.nodup_dedup _) ?_
    intro q hq t ht
    exact List.mem_dedup.mpr (List.mem_flatMap.mpr ⟨q, hq, ht⟩)
  · decide

/-- C9 witness: submitting the duplicate list ["react", "react"] to an empty
store returns two entries, both occurrences carry the single created tag
(id 0), and the store grew by created tags with pairwise distinct names. -/
theorem findOrCreateMany_no_dup_creation_witness :
    (((TagStore.mk [] 0).findOrCreateMany ["react", "react"]).1.length = 2) ∧
    ((⟨0, "react"⟩ : Tag) = ⟨0, "react"⟩) ∧
    (∃ created : List Tag,
       ((TagStore.mk [] 0).findOrCreateMany ["react", "react"]).2.tags =
         [] ++ created ∧
       (created.map Tag.name).Nodup) :=
  have h := findOrCreateMany_no_dup_creation (TagStore.mk [] 0) ["react", "react"]
  ⟨h.1, h.2.1 ⟨0, "react"⟩ (by decide) ⟨0, "react"⟩ (by decide) rfl, h.2.2⟩

end FakeSO
